import Mathlib

/-!
Verification of the streamsync dataflow core (rust-course capstone).

The repository ships three Rust files: `processor_context.rs` (a working
configuration store backed by `HashMap<String, String>`), `connection.rs`
(only an async trait declaration, with no queue implementation), and
`processor.rs` (an ill-formed stub).  The `ProcessorContext` operations
are embedded directly from the source; the Connection queue and the
ProcessingSession are modelled from the specification, whose §4.1 and
§4.2 define the contract the missing implementation must satisfy.
-/

/- ### ProcessorContext, embedded from src/capstone/streamsync/src/processor_context.rs -/

/-- Mirror of `HashMap::insert` on an association list with unique keys:
replace the value at the first occurrence of the key, else append. -/
def hashInsert (k v : String) : List (String × String) → List (String × String)
  | [] => [(k, v)]
  | (k', v') :: rest => if k' = k then (k, v) :: rest else (k', v') :: hashInsert k v rest

/-- Mirror of `HashMap::get`: value at the first occurrence of the key. -/
def hashGet (k : String) : List (String × String) → Option String
  | [] => none
  | (k', v) :: rest => if k' = k then some v else hashGet k rest

/-- Embeds `pub struct ProcessorContext { processor_name: String, config: HashMap<String, String> }`. -/
structure ProcessorContext where
  processor_name : String
  config : List (String × String)
  deriving DecidableEq, Repr

/-- Embeds `ProcessorContext::new`: stores the name and an empty config map. -/
def ProcessorContext.new (processor_name : String) : ProcessorContext :=
  { processor_name := processor_name, config := [] }

/-- Embeds `ProcessorContext::set_property`: `self.config.insert(key, value)`. -/
def ProcessorContext.set_property (ctx : ProcessorContext) (key value : String) : ProcessorContext :=
  { ctx with config := hashInsert key value ctx.config }

/-- Embeds `ProcessorContext::get_property`: `self.config.get(key)`. -/
def ProcessorContext.get_property (ctx : ProcessorContext) (key : String) : Option String :=
  hashGet key ctx.config

/-- Number of entries of the config map carrying a given key. -/
def keyCount (k : String) : List (String × String) → Nat
  | [] => 0
  | (k', _) :: rest => (if k' = k then 1 else 0) + keyCount k rest

/- ### Declaration-level embedding of src/capstone/streamsync/src/processor.rs -/

/-- A Rust trait declaration: its name and the method names it declares. -/
structure RustTraitDecl where
  name : String
  methods : List String
  deriving DecidableEq

/-- A Rust struct declaration: its name and its field names. -/
structure RustStructDecl where
  name : String
  fields : List String
  deriving DecidableEq

/-- A Rust `impl Trait for Struct` block: the functions it defines and the
field names its struct literals (`Self { ... }`) initialise. -/
structure RustTraitImpl where
  traitName : String
  forStruct : String
  definedFns : List String
  usedFieldInits : List String
  deriving DecidableEq

/-- Embeds `pub trait Processor { fn on_trigger(&self); fn get_name(&self) -> &'static str; }`. -/
def processorTrait : RustTraitDecl :=
  { name := "Processor", methods := ["on_trigger", "get_name"] }

/-- Embeds `pub struct FileProcessor { processor_context: ProcessorContext }`. -/
def fileProcessorStruct : RustStructDecl :=
  { name := "FileProcessor", fields := ["processor_context"] }

/-- Embeds `impl Processor for FileProcessor { pub fn new(..) { Self { context } } fn on_trigger(..) .. fn get_name(..) .. }`. -/
def fileProcessorImpl : RustTraitImpl :=
  { traitName := "Processor", forStruct := "FileProcessor",
    definedFns := ["new", "on_trigger", "get_name"],
    usedFieldInits := ["context"] }

/-- Rust's rules relevant here: every function defined in a trait impl must
be declared by the trait, and every struct-literal field must be a field of
the struct.  Violating either makes the program ill-formed (rejected). -/
def implWellFormed (t : RustTraitDecl) (s : RustStructDecl) (i : RustTraitImpl) : Prop :=
  (∀ f ∈ i.definedFns, f ∈ t.methods) ∧ (∀ fld ∈ i.usedFieldInits, fld ∈ s.fields)

instance (t : RustTraitDecl) (s : RustStructDecl) (i : RustTraitImpl) :
    Decidable (implWellFormed t s i) := by
  unfold implWellFormed; infer_instance

/- ### Connection, modelled from the spec (src holds only the async trait declaration) -/

/-- Modelled from the spec: a FlowFile (§3) — identifier, byte payload,
string attributes, creation timestamp and generation counter.  Missing from
src, which declares no FlowFile type. -/
structure FlowFile where
  id : Nat
  content : List Nat
  attributes : List (String × String)
  created : Nat
  generation : Nat
  deriving DecidableEq, Repr

/-- Modelled from the spec: the `Backpressure` rejection signal (§7). -/
inductive Backpressure where
  | backpressure
  deriving DecidableEq, Repr

/-- Modelled from the spec: a Connection (§3, §4.1) — a bounded FIFO queue
with a maximum capacity.  Missing from src, where `connection.rs` holds only
the async trait declaration `send`/`receive` with no queue implementation. -/
structure Connection (α : Type) where
  capacity : Nat
  queue : List α
  deriving DecidableEq, Repr

/-- Modelled from the spec: `enqueue(flowfile) -> Result<(), Backpressure>`
(§4.1) — insert at the tail if current size + incoming size ≤ capacity,
otherwise fail with Backpressure and admit nothing. -/
def Connection.enqueue {α : Type} (c : Connection α) (f : α) : Connection α × Except Backpressure Unit :=
  if c.queue.length + 1 ≤ c.capacity then
    ({ c with queue := c.queue ++ [f] }, Except.ok ())
  else
    (c, Except.error Backpressure.backpressure)

/-- Modelled from the spec: `dequeue() -> Option<FlowFile>` (§4.1) — remove
and return the head if non-empty, return nothing if empty, never block. -/
def Connection.dequeue {α : Type} (c : Connection α) : Option α × Connection α :=
  match c.queue with
  | [] => (none, c)
  | f :: rest => (some f, { c with queue := rest })

/-- Run a sequence of enqueue calls; a rejected enqueue leaves the
connection unchanged and the sequence continues. -/
def Connection.enqueueAll {α : Type} (c : Connection α) : List α → Connection α
  | [] => c
  | f :: fs => (c.enqueue f).1.enqueueAll fs

/- ### Scenario inputs for the capacity-2 test of spec §8 -/

def f1 : FlowFile := { id := 1, content := [1], attributes := [], created := 0, generation := 0 }

def f2 : FlowFile := { id := 2, content := [2], attributes := [], created := 0, generation := 0 }

def f3 : FlowFile := { id := 3, content := [3], attributes := [], created := 0, generation := 0 }

def conn0 : Connection FlowFile := { capacity := 2, queue := [] }

/- ### Lemmas about the Connection queue -/

theorem enqueue_capacity {α : Type} (c : Connection α) (f : α) :
    (c.enqueue f).1.capacity = c.capacity := by
  unfold Connection.enqueue
  split <;> rfl

theorem enqueue_length_le {α : Type} (c : Connection α) (f : α)
    (h : c.queue.length ≤ c.capacity) : (c.enqueue f).1.queue.length ≤ c.capacity := by
  unfold Connection.enqueue
  split
  · simpa using ‹c.queue.length + 1 ≤ c.capacity›
  · exact h

theorem enqueueAll_length_le {α : Type} (fs : List α) (c : Connection α)
    (h : c.queue.length ≤ c.capacity) : (c.enqueueAll fs).queue.length ≤ c.capacity := by
  induction fs generalizing c with
  | nil => exact h
  | cons f fs ih =>
    have hcap := enqueue_capacity c f
    have := ih (c.enqueue f).1 (by rw [hcap]; exact enqueue_length_le c f h)
    calc ((c.enqueue f).1.enqueueAll fs).queue.length
        ≤ (c.enqueue f).1.capacity := this
      _ = c.capacity := hcap

theorem enqueue_full {α : Type} (c : Connection α) (f : α)
    (h : c.capacity ≤ c.queue.length) :
    c.enqueue f = (c, Except.error Backpressure.backpressure) := by
  unfold Connection.enqueue
  rw [if_neg]
  omega

theorem enqueue_ok {α : Type} (c : Connection α) (f : α)
    (h : c.queue.length + 1 ≤ c.capacity) :
    c.enqueue f = ({ c with queue := c.queue ++ [f] }, Except.ok ()) := by
  unfold Connection.enqueue
  rw [if_pos h]

/- ### Claim theorems for the Connection queue -/

/-- Claim C1: for every Connection at capacity C, no sequence of enqueue
calls drives the queue length past C, and an enqueue at a full queue fails
with Backpressure, admits nothing, and leaves the queue unchanged. -/
theorem connection_capacity_invariant {α : Type} (c : Connection α) (fs : List α) (f : α)
    (h : c.queue.length ≤ c.capacity) :
    (c.enqueueAll fs).queue.length ≤ c.capacity
    ∧ (c.queue.length = c.capacity →
        c.enqueue f = (c, Except.error Backpressure.backpressure)) :=
  ⟨enqueueAll_length_le fs c h, fun he => enqueue_full c f (le_of_eq he.symm)⟩

/-- Witness for C1 at a concrete capacity-2 connection and three flowfiles. -/
theorem connection_capacity_invariant_witness :
    (conn0.enqueueAll [f1, f2, f3]).queue.length ≤ conn0.capacity
    ∧ (conn0.queue.length = conn0.capacity →
        conn0.enqueue f3 = (conn0, Except.error Backpressure.backpressure)) :=
  connection_capacity_invariant conn0 [f1, f2, f3] f3 (by decide)

/-- Claim C2: enqueue is FIFO — enqueueing A then B (with room for both)
appends them in order at the tail, and from an empty queue the next two
dequeues return A then B. -/
theorem connection_fifo {α : Type} (c : Connection α) (a b : α)
    (h : c.queue.length + 2 ≤ c.capacity) :
    ((c.enqueue a).1.enqueue b).1.queue = c.queue ++ [a, b]
    ∧ (c.queue = [] →
        ((c.enqueue a).1.enqueue b).1.dequeue.1 = some a
        ∧ ((c.enqueue a).1.enqueue b).1.dequeue.2.dequeue.1 = some b) := by
  have h1 : c.queue.length + 1 ≤ c.capacity := by omega
  rw [enqueue_ok c a h1]
  have h2 : ({ c with queue := c.queue ++ [a] } : Connection α).queue.length + 1
      ≤ ({ c with queue := c.queue ++ [a] } : Connection α).capacity := by
    simp; omega
  rw [enqueue_ok _ b h2]
  constructor
  · simp
  · intro he
    simp [Connection.dequeue, he]

/-- Witness for C2 at a concrete empty capacity-2 connection. -/
theorem connection_fifo_witness :
    ((conn0.enqueue f1).1.enqueue f2).1.queue = conn0.queue ++ [f1, f2]
    ∧ (conn0.queue = [] →
        ((conn0.enqueue f1).1.enqueue f2).1.dequeue.1 = some f1
        ∧ ((conn0.enqueue f1).1.enqueue f2).1.dequeue.2.dequeue.1 = some f2) :=
  connection_fifo conn0 f1 f2 (by decide)

/-- Claim C3: dequeue removes and returns the head when the queue is
non-empty and returns none (leaving the connection unchanged) when it is
empty; it is a total function, so it never blocks or fails otherwise. -/
theorem connection_dequeue_total {α : Type} (c : Connection α) :
    (c.queue = [] → c.dequeue = (none, c))
    ∧ ∀ f rest, c.queue = f :: rest →
        c.dequeue = (some f, { c with queue := rest }) := by
  obtain ⟨cap, q⟩ := c
  constructor
  · intro hq
    cases hq
    rfl
  · intro f rest hq
    cases hq
    rfl

/-- Witness for C3 at a concrete one-element connection. -/
theorem connection_dequeue_total_witness :
    ({ capacity := 2, queue := [f1] } : Connection FlowFile).dequeue
      = (some f1, { capacity := 2, queue := [] }) :=
  (connection_dequeue_total { capacity := 2, queue := [f1] }).2 f1 [] rfl

/- ### Claim C4: the capacity-2 scenario of spec §8 -/

def s1 : Connection FlowFile := (conn0.enqueue f1).1

def s2 : Connection FlowFile := (s1.enqueue f2).1

def s3 : Connection FlowFile := (s2.enqueue f3).1

def s4 : Connection FlowFile := s3.dequeue.2

def s5 : Connection FlowFile := (s4.enqueue f3).1

/-- Claim C4: with capacity 2 from empty — f1 admits (length 1), f2 admits
(length 2), f3 is rejected with Backpressure (length stays 2), dequeue
yields f1 (length 1), then f3 admits and the final order is [f2, f3]. -/
theorem capacity_two_scenario :
    (conn0.enqueue f1).2 = Except.ok () ∧ s1.queue.length = 1
    ∧ (s1.enqueue f2).2 = Except.ok () ∧ s2.queue.length = 2
    ∧ (s2.enqueue f3).2 = Except.error Backpressure.backpressure ∧ s3.queue.length = 2
    ∧ s3.dequeue.1 = some f1 ∧ s4.queue.length = 1
    ∧ (s4.enqueue f3).2 = Except.ok () ∧ s5.queue.length = 2
    ∧ s5.queue = [f2, f3] :=
  ⟨rfl, rfl, rfl, rfl, rfl, rfl, rfl, rfl, rfl, rfl, rfl⟩

/- ### Claim C8: the Processor stub is ill-formed -/

/-- Claim C8: the FileProcessor impl block defines `new`, a function the
Processor trait does not declare, and its constructor initialises a field
`context` that the struct does not have, so the stub is rejected by the
compiler. -/
theorem fileProcessor_stub_ill_formed :
    ¬ implWellFormed processorTrait fileProcessorStruct fileProcessorImpl
    ∧ "new" ∈ fileProcessorImpl.definedFns ∧ "new" ∉ processorTrait.methods
    ∧ "context" ∈ fileProcessorImpl.usedFieldInits
    ∧ "context" ∉ fileProcessorStruct.fields := by
  decide

/- ### Lemmas about the configuration map -/

theorem hashGet_insert_same (k v : String) (m : List (String × String)) :
    hashGet k (hashInsert k v m) = some v := by
  induction m with
  | nil => simp [hashInsert, hashGet]
  | cons p rest ih =>
    obtain ⟨k0, v0⟩ := p
    by_cases h : k0 = k
    · subst h
      simp [hashInsert, hashGet]
    · simp [hashInsert, hashGet, h, ih]

theorem hashGet_insert_other (k k' v : String) (m : List (String × String))
    (hne : k' ≠ k) : hashGet k' (hashInsert k v m) = hashGet k' m := by
  induction m with
  | nil => simp [hashInsert, hashGet, hne.symm]
  | cons p rest ih =>
    obtain ⟨k0, v0⟩ := p
    by_cases h : k0 = k
    · subst h
      simp [hashInsert, hashGet, hne.symm]
    · by_cases h' : k0 = k'
      · simp [hashInsert, hashGet, h, h', hne]
      · simp [hashInsert, hashGet, h, h', ih]

theorem hashGet_not_mem (k : String) (m : List (String × String))
    (h : k ∉ m.map Prod.fst) : hashGet k m = none := by
  induction m with
  | nil => rfl
  | cons p rest ih =>
    obtain ⟨k0, v0⟩ := p
    simp only [List.map_cons, List.mem_cons] at h
    push_neg at h
    have hk : ¬ k0 = k := fun he => h.1 he.symm
    simp [hashGet, hk, ih h.2]

theorem keyCount_not_mem (k : String) (m : List (String × String))
    (h : k ∉ m.map Prod.fst) : keyCount k m = 0 := by
  induction m with
  | nil => rfl
  | cons p rest ih =>
    obtain ⟨k0, v0⟩ := p
    simp only [List.map_cons, List.mem_cons] at h
    push_neg at h
    have hk : ¬ k0 = k := fun he => h.1 he.symm
    simp [keyCount, hk, ih h.2]

theorem keyCount_insert (k v : String) (m : List (String × String)) :
    keyCount k (hashInsert k v m) = max 1 (keyCount k m) := by
  induction m with
  | nil => simp [hashInsert, keyCount]
  | cons p rest ih =>
    obtain ⟨k0, v0⟩ := p
    by_cases h : k0 = k
    · subst h
      simp [hashInsert, keyCount]
    · simp [hashInsert, keyCount, h, ih]

theorem keyCount_le_one_of_nodup (k : String) (m : List (String × String))
    (h : (m.map Prod.fst).Nodup) : keyCount k m ≤ 1 := by
  induction m with
  | nil => simp [keyCount]
  | cons p rest ih =>
    obtain ⟨k0, v0⟩ := p
    simp only [List.map_cons, List.nodup_cons] at h
    by_cases he : k0 = k
    · subst he
      have := keyCount_not_mem k0 rest h.1
      simp [keyCount, this]
    · simp [keyCount, he, ih h.2]

/- ### Claim theorems for ProcessorContext -/

/-- Claim C6: `get_property` on a key absent from the configuration returns
none — the context never fabricates a default for an absent key. -/
theorem get_property_absent (ctx : ProcessorContext) (k : String)
    (h : k ∉ ctx.config.map Prod.fst) : ctx.get_property k = none :=
  hashGet_not_mem k ctx.config h

/-- Witness for C6: a fresh context has no entry for "missing". -/
theorem get_property_absent_witness :
    (ProcessorContext.new "p").get_property "missing" = none :=
  get_property_absent (ProcessorContext.new "p") "missing" (by decide)

/-- Claim C7: property keys are case-sensitive and unique — after
`set_property k v`, `get_property k` is v; any distinct key (in particular
one differing only in letter case) is unaffected; setting the same key twice
leaves exactly one entry for it, holding the most recent value. -/
theorem property_keys_case_sensitive_unique (ctx : ProcessorContext) (k k' v v₁ v₂ : String)
    (hne : k' ≠ k) (hnd : (ctx.config.map Prod.fst).Nodup) :
    (ctx.set_property k v).get_property k = some v
    ∧ (ctx.set_property k v).get_property k' = ctx.get_property k'
    ∧ ((ctx.set_property k v₁).set_property k v₂).get_property k = some v₂
    ∧ keyCount k ((ctx.set_property k v₁).set_property k v₂).config = 1 := by
  refine ⟨hashGet_insert_same k v ctx.config,
    hashGet_insert_other k k' v ctx.config hne,
    hashGet_insert_same k v₂ _, ?_⟩
  show keyCount k (hashInsert k v₂ (hashInsert k v₁ ctx.config)) = 1
  rw [keyCount_insert, keyCount_insert]
  have := keyCount_le_one_of_nodup k ctx.config hnd
  omega

/-- Witness for C7: keys "key" and "Key" are distinct in a fresh context. -/
theorem property_keys_case_sensitive_unique_witness :
    ((ProcessorContext.new "p").set_property "key" "a").get_property "key" = some "a"
    ∧ ((ProcessorContext.new "p").set_property "key" "a").get_property "Key"
        = (ProcessorContext.new "p").get_property "Key"
    ∧ (((ProcessorContext.new "p").set_property "key" "b").set_property "key" "c").get_property "key" = some "c"
    ∧ keyCount "key" ((((ProcessorContext.new "p").set_property "key" "b").set_property "key" "c").config) = 1 :=
  property_keys_case_sensitive_unique (ProcessorContext.new "p") "key" "Key" "a" "b" "c"
    (by decide) (by decide)

/-- Claim C9: `ProcessorContext::new` stores the given name and an empty
configuration, so every `get_property` on it returns none. -/
theorem new_context_empty (n : String) :
    (ProcessorContext.new n).processor_name = n
    ∧ ∀ k, (ProcessorContext.new n).get_property k = none :=
  ⟨rfl, fun _ => rfl⟩

/-- Witness for C9 at a concrete name and key. -/
theorem new_context_empty_witness :
    (ProcessorContext.new "p").get_property "x" = none :=
  (new_context_empty "p").2 "x"

/-- Claim C10: `set_property k v` is frame-preserving — every other key
resolves as before, and the processor name is unchanged. -/
theorem set_property_frame (ctx : ProcessorContext) (k k' v : String) (hne : k' ≠ k) :
    (ctx.set_property k v).get_property k' = ctx.get_property k'
    ∧ (ctx.set_property k v).processor_name = ctx.processor_name :=
  ⟨hashGet_insert_other k k' v ctx.config hne, rfl⟩

/-- Witness for C10 on a context with one existing entry. -/
theorem set_property_frame_witness :
    (((ProcessorContext.new "p").set_property "a" "1").set_property "b" "2").get_property "a"
        = ((ProcessorContext.new "p").set_property "a" "1").get_property "a"
    ∧ (((ProcessorContext.new "p").set_property "a" "1").set_property "b" "2").processor_name
        = ((ProcessorContext.new "p").set_property "a" "1").processor_name :=
  set_property_frame ((ProcessorContext.new "p").set_property "a" "1") "b" "a" "2" (by decide)

/- ### ProcessingSession, modelled from the spec §4.2 -/

/-- Connection bound to the first occurrence of a relationship name. -/
def connLookup (r : String) : List (String × Connection FlowFile) → Option (Connection FlowFile)
  | [] => none
  | (r', c) :: rest => if r' = r then some c else connLookup r rest

/-- Replace the connection at the first occurrence of a relationship name;
unchanged when the name is absent. -/
def connUpdate (r : String) (c : Connection FlowFile) :
    List (String × Connection FlowFile) → List (String × Connection FlowFile)
  | [] => []
  | (r', c') :: rest => if r' = r then (r', c) :: rest else (r', c') :: connUpdate r c rest

/-- Modelled from the spec: a ProcessingSession (§4.2), missing from src —
the narrow transactional interface a Processor uses during one invocation.
It records every pulled FlowFile with its originating relationship in pull
order, and stages transfers as pending until commit. -/
structure ProcessingSession where
  inputs : List (String × Connection FlowFile)
  outputs : List (String × Connection FlowFile)
  pulled : List (String × FlowFile)
  pending : List (String × FlowFile)
  deriving DecidableEq, Repr

/-- Modelled from the spec: `get(relationship) -> Option<FlowFile>` (§4.2)
— pull the head of the named input Connection, recording provenance. -/
def ProcessingSession.get (s : ProcessingSession) (rel : String) :
    Option FlowFile × ProcessingSession :=
  match connLookup rel s.inputs with
  | none => (none, s)
  | some c =>
    match c.dequeue with
    | (none, _) => (none, s)
    | (some f, c') =>
      (some f, { s with inputs := connUpdate rel c' s.inputs,
                        pulled := s.pulled ++ [(rel, f)] })

/-- Modelled from the spec: `transfer(flowfile, relationship)` (§4.2) —
stage the FlowFile as a pending transfer; outputs change only at commit. -/
def ProcessingSession.transfer (s : ProcessingSession) (f : FlowFile) (rel : String) :
    ProcessingSession × Except Backpressure Unit :=
  match connLookup rel s.outputs with
  | none => (s, Except.error Backpressure.backpressure)
  | some _ => ({ s with pending := s.pending ++ [(rel, f)] }, Except.ok ())

/-- Modelled from the spec: commit applies the staged transfers, in order,
to the named output Connections; only commit ever touches outputs. -/
def ProcessingSession.commit (s : ProcessingSession) : ProcessingSession :=
  { inputs := s.inputs,
    outputs := s.pending.foldl (fun m rf =>
      match connLookup rf.1 m with
      | none => m
      | some c => connUpdate rf.1 (c.enqueue rf.2).1 m) s.outputs,
    pulled := [], pending := [] }

/-- Push one pulled FlowFile back onto the head of its origin Connection. -/
def returnToOrigin (m : List (String × Connection FlowFile)) (rf : String × FlowFile) :
    List (String × Connection FlowFile) :=
  match connLookup rf.1 m with
  | none => m
  | some c => connUpdate rf.1 { c with queue := rf.2 :: c.queue } m

/-- Modelled from the spec: atomic session rollback (§4.2) — every pulled
FlowFile is returned to the head of its originating Connection, most
recently pulled first so the original order is restored; pending transfers
are discarded and outputs are untouched. -/
def ProcessingSession.rollback (s : ProcessingSession) : ProcessingSession :=
  { inputs := s.pulled.foldr (fun rf m => returnToOrigin m rf) s.inputs,
    outputs := s.outputs,
    pulled := [],
    pending := [] }

/- ### Lemmas about relationship maps and the session -/

theorem connLookup_update_same (r : String) (c c0 : Connection FlowFile)
    (m : List (String × Connection FlowFile)) (h : connLookup r m = some c0) :
    connLookup r (connUpdate r c m) = some c := by
  induction m with
  | nil => cases h
  | cons p rest ih =>
    obtain ⟨r0, cc⟩ := p
    by_cases hr : r0 = r
    · subst hr
      simp [connUpdate, connLookup]
    · simp only [connLookup, connUpdate, if_neg hr] at h ⊢
      exact ih h

theorem connLookup_update_other (r r' : String) (c : Connection FlowFile)
    (m : List (String × Connection FlowFile)) (hne : r' ≠ r) :
    connLookup r' (connUpdate r c m) = connLookup r' m := by
  induction m with
  | nil => rfl
  | cons p rest ih =>
    obtain ⟨r0, cc⟩ := p
    by_cases hr : r0 = r
    · subst hr
      have h0 : ¬ r0 = r' := fun he => hne he.symm
      simp [connUpdate, connLookup, h0]
    · by_cases hr' : r0 = r'
      · simp [connUpdate, connLookup, hr, hr', hne]
      · simp [connUpdate, connLookup, hr, hr', ih]

theorem connUpdate_update_same (r : String) (c c' : Connection FlowFile)
    (m : List (String × Connection FlowFile)) :
    connUpdate r c (connUpdate r c' m) = connUpdate r c m := by
  induction m with
  | nil => rfl
  | cons p rest ih =>
    obtain ⟨r0, cc⟩ := p
    by_cases hr : r0 = r
    · subst hr
      simp [connUpdate]
    · simp [connUpdate, hr, ih]

theorem connUpdate_self (r : String) (c : Connection FlowFile)
    (m : List (String × Connection FlowFile)) (h : connLookup r m = some c) :
    connUpdate r c m = m := by
  induction m with
  | nil => rfl
  | cons p rest ih =>
    obtain ⟨r0, cc⟩ := p
    by_cases hr : r0 = r
    · subst hr
      simp only [connLookup, if_pos rfl] at h
      injection h with h
      simp [connUpdate, h]
    · simp only [connLookup, if_neg hr] at h
      simp [connUpdate, hr, ih h]

theorem conn_eta (c : Connection FlowFile) (f : FlowFile) (q : List FlowFile)
    (h : c.queue = f :: q) : ({ c with queue := f :: q } : Connection FlowFile) = c := by
  obtain ⟨cap, qq⟩ := c
  rw [show qq = f :: q from h]

theorem dequeue_cons {α : Type} (c : Connection α) (f : α) (rest : List α)
    (h : c.queue = f :: rest) : c.dequeue = (some f, { c with queue := rest }) := by
  unfold Connection.dequeue
  rw [h]

theorem get_pull (s : ProcessingSession) (rel : String) (c : Connection FlowFile)
    (f : FlowFile) (rest : List FlowFile)
    (hl : connLookup rel s.inputs = some c) (hq : c.queue = f :: rest) :
    s.get rel = (some f,
      { s with inputs := connUpdate rel { c with queue := rest } s.inputs,
               pulled := s.pulled ++ [(rel, f)] }) := by
  simp only [ProcessingSession.get, hl, dequeue_cons c f rest hq]

theorem returnToOrigin_update (r : String) (c : Connection FlowFile) (f : FlowFile)
    (q : List FlowFile) (m : List (String × Connection FlowFile))
    (hl : connLookup r m = some c) (hq : c.queue = f :: q) :
    returnToOrigin (connUpdate r { c with queue := q } m) (r, f) = m := by
  have hl' : connLookup r (connUpdate r { c with queue := q } m)
      = some { c with queue := q } := connLookup_update_same r _ c m hl
  unfold returnToOrigin
  rw [hl']
  show connUpdate r { c with queue := f :: q } (connUpdate r { c with queue := q } m) = m
  rw [connUpdate_update_same, conn_eta c f q hq]
  exact connUpdate_self r c m hl

/-- Claim C5: if an invocation pulls X from input relationship r1 and Y
from input relationship r2 and then fails before committing, rollback
restores both FlowFiles to the heads of their originating Connections in
their original order — the inputs are exactly as before the invocation —
and no output Connection received anything (outputs unchanged, pending
transfers discarded). -/
theorem session_rollback_atomic
    (s : ProcessingSession) (r1 r2 : String) (c1 c2 : Connection FlowFile)
    (x y : FlowFile) (q1 q2 : List FlowFile)
    (hp : s.pulled = [])
    (h1 : connLookup r1 s.inputs = some c1) (hq1 : c1.queue = x :: q1)
    (h2 : connLookup r2 s.inputs = some c2) (hq2 : c2.queue = y :: q2)
    (hne : r1 ≠ r2) :
    (s.get r1).1 = some x
    ∧ ((s.get r1).2.get r2).1 = some y
    ∧ ((s.get r1).2.get r2).2.rollback.inputs = s.inputs
    ∧ ((s.get r1).2.get r2).2.rollback.outputs = s.outputs
    ∧ ((s.get r1).2.get r2).2.rollback.pending = [] := by
  have hg1 := get_pull s r1 c1 x q1 h1 hq1
  have hg1b : (s.get r1).2
      = { s with inputs := connUpdate r1 { c1 with queue := q1 } s.inputs,
                 pulled := s.pulled ++ [(r1, x)] } := by
    rw [hg1]
  have hl2 : connLookup r2 (connUpdate r1 { c1 with queue := q1 } s.inputs) = some c2 := by
    rw [connLookup_update_other r1 r2 { c1 with queue := q1 } s.inputs (Ne.symm hne)]
    exact h2
  have hg2 := get_pull
    { s with inputs := connUpdate r1 { c1 with queue := q1 } s.inputs,
             pulled := s.pulled ++ [(r1, x)] } r2 c2 y q2 hl2 hq2
  have hg2b : (ProcessingSession.get
      { s with
          inputs := connUpdate r1 ({ c1 with queue := q1 }) s.inputs,
          pulled := s.pulled ++ [(r1, x)] }
      r2).2
      = { s with
          inputs := connUpdate r2 ({ c2 with queue := q2 })
            (connUpdate r1 ({ c1 with queue := q1 }) s.inputs),
          pulled := (s.pulled ++ [(r1, x)]) ++ [(r2, y)] } := by
    rw [hg2]
  refine ⟨by rw [hg1], by rw [hg1b, hg2], ?_, ?_, ?_⟩
  · rw [hg1b, hg2b]
    show ((s.pulled ++ [(r1, x)]) ++ [(r2, y)]).foldr (fun rf m => returnToOrigin m rf)
      (connUpdate r2 { c2 with queue := q2 }
        (connUpdate r1 { c1 with queue := q1 } s.inputs)) = s.inputs
    rw [hp]
    simp only [List.singleton_append, List.cons_append, List.nil_append,
      List.foldr_cons, List.foldr_nil]
    rw [returnToOrigin_update r2 c2 y q2 _ hl2 hq2,
      returnToOrigin_update r1 c1 x q1 s.inputs h1 hq1]
  · rw [hg1b, hg2b]
    rfl
  · rw [hg1b, hg2b]
    rfl

/-- Concrete two-input session used to witness the rollback claim. -/
def sess0 : ProcessingSession :=
  { inputs := [("in1", { capacity := 2, queue := [f1] }),
               ("in2", { capacity := 2, queue := [f2] })],
    outputs := [("out", { capacity := 2, queue := [] })],
    pulled := [],
    pending := [] }

/-- Witness for C5: pulling f1 and f2 from a concrete session and rolling
back restores the session's inputs and leaves its outputs untouched. -/
theorem session_rollback_atomic_witness :
    (sess0.get "in1").1 = some f1
    ∧ ((sess0.get "in1").2.get "in2").1 = some f2
    ∧ ((sess0.get "in1").2.get "in2").2.rollback.inputs = sess0.inputs
    ∧ ((sess0.get "in1").2.get "in2").2.rollback.outputs = sess0.outputs
    ∧ ((sess0.get "in1").2.get "in2").2.rollback.pending = [] :=
  session_rollback_atomic sess0 "in1" "in2"
    { capacity := 2, queue := [f1] } { capacity := 2, queue := [f2] }
    f1 f2 [] [] rfl (by decide) rfl (by decide) rfl (by decide)
